import Mathlib

/-!
Shallow embedding of the Exchange-Rate Cache & Conversion subsystem of
server_python/services/currency_service.py.

Modelling conventions:
* Python floats are modelled as rationals (ℚ); Python round(x, 2) is
  round-half-to-even at two decimals (roundHalfEven, round2).
* A Python dict from currency code to rate is a List (String × ℚ) where
  dictInsert prepends the new binding and drops the shadowed one, and
  dictLookup returns the first binding; this reproduces overwrite-on-insert.
* The exchange_rates table (UNIQUE(currency_code, date)) is a List Row;
  INSERT OR REPLACE is upsertRow; SQL MAX over the TEXT date column is the
  lexicographic maximum of the date strings (maxDate).
* Dates are the "YYYY-MM-DD" strings the code manipulates; the lexicographic
  String order agrees with chronological order on this format.
* Network and XML input of fetch_bnr_rates is an Option HttpResponse:
  none models a transport failure (timeout / connection error); body = none
  models unparseable XML; cube = none models a document without a Cube
  element; an entry with text = none models a non-numeric rate value
  (float(...) raises); the multiplier attribute is Option Int (none = the
  attribute is absent, so int("1") = 1 is used).
* Every exception raised inside the try of fetch_bnr_rates is re-raised as
  the single generic message "Failed to fetch exchange rates from BNR";
  hence fetch errors are the single constructor ServiceError.fetchFailed.
* get_latest_rates raises "No exchange rates available"
  (ServiceError.noRatesAvailable) and convert_currency raises
  "Exchange rate not available for ..." (ServiceError.rateNotFound), or an
  uncaught ZeroDivisionError (ServiceError.zeroDivision) when the target
  currency's rate is 0.0.
* The provenance strings are the literal ones of the code: "cache" for a
  same-day cache hit, "bnr" for a fresh fetch (the spec's live), and
  "cache-fallback" for the most-recent-date fallback (the spec's
  stale-cache).
* get_latest_rates is pure state passing: it takes today's date, the store
  and the would-be HTTP response, and returns the result together with the
  updated store and a flag recording whether fetch_bnr_rates was invoked.
-/

namespace CurrencyService

/-- One row of the exchange_rates table: (currency_code, rate, date),
with UNIQUE(currency_code, date). -/
structure Row where
  currency_code : String
  rate : ℚ
  date : String
deriving Repr, DecidableEq

/-- The exchange_rates table. -/
abbrev Store := List Row

/-- A Python dict from currency code to rate, as an association list whose
first binding for a key is the current one. -/
abbrev RatesMap := List (String × ℚ)

/-- Drop every binding of a key from an association list. -/
def removeKey : RatesMap → String → RatesMap
  | [], _ => []
  | (k, v) :: rest, c => if k = c then removeKey rest c else (k, v) :: removeKey rest c

/-- Python dict assignment d[c] = v: the new binding shadows any old one. -/
def dictInsert (m : RatesMap) (c : String) (v : ℚ) : RatesMap :=
  (c, v) :: removeKey m c

/-- Python dict lookup d[c] (and the membership test c in d). -/
def dictLookup (m : RatesMap) (c : String) : Option ℚ :=
  match m with
  | [] => none
  | (k, v) :: rest => if k = c then some v else dictLookup rest c

/-- Round a rational to the nearest integer, ties to even: the behaviour of
Python's builtin round on exactly representable values. -/
def roundHalfEven (q : ℚ) : ℤ :=
  let f := ⌊q⌋
  if q - f < 1/2 then f
  else if 1/2 < q - f then f + 1
  else if f % 2 = 0 then f else f + 1

/-- Python round(x, 2): round to two decimal places. -/
def round2 (q : ℚ) : ℚ :=
  (roundHalfEven (q * 100) : ℚ) / 100

/-- The exceptions the service raises, one constructor per distinct raise
site: the generic wrapper of fetch_bnr_rates, the empty-store failure of
get_latest_rates, the missing-rate failure of convert_currency, and the
ZeroDivisionError its division raises — uncaught — when the target
currency's rate is 0.0. -/
inductive ServiceError where
  | fetchFailed
  | noRatesAvailable
  | rateNotFound (from_currency to_currency : String)
  | zeroDivision
deriving Repr, DecidableEq

/-- convert_currency with a caller-supplied rates map (rates is not None).
Python float division by 0.0 raises ZeroDivisionError whatever the
numerator is, so the division amount_in_ron / rates[to_currency] is guarded
here by the divisor being nonzero. -/
def convert_currency (amount : ℚ) (from_currency to_currency : String)
    (rates : RatesMap) : Except ServiceError ℚ :=
  if from_currency = to_currency then .ok amount
  else if dictLookup rates from_currency = none ∨ dictLookup rates to_currency = none then
    .error (.rateNotFound from_currency to_currency)
  else
    match dictLookup rates from_currency, dictLookup rates to_currency with
    | some rf, some rt =>
      if rt = 0 then .error .zeroDivision
      else .ok (round2 (amount * rf / rt))
    | _, _ => .error (.rateNotFound from_currency to_currency)

/-- One Rate element of the BNR document: the currency attribute (none when
absent), the multiplier attribute parsed as an integer (none when absent,
in which case 1 is used), and the element text parsed as a float (none when
the text is not numeric, in which case float(...) raises). -/
structure RateEntry where
  currency : Option String
  multiplier : Option Int
  text : Option ℚ
deriving Repr, DecidableEq

/-- The Cube element: its date attribute and its Rate children. -/
structure Cube where
  dateAttr : Option String
  entries : List RateEntry
deriving Repr, DecidableEq

/-- The parsed XML tree: cube = none models a document without a Cube
element (root.find returns None). -/
structure BnrDocument where
  cube : Option Cube
deriving Repr, DecidableEq

/-- The HTTP response: its status code, and its body as a parsed document
(none models text that ET.fromstring rejects). -/
structure HttpResponse where
  status : Nat
  body : Option BnrDocument
deriving Repr, DecidableEq

/-- Result of a successful fetch_bnr_rates: the normalized currency → rate
map (every entry of the Python dict carries the same date, so only the rate
is kept) and the snapshot date. -/
structure FetchData where
  exchangeRates : RatesMap
  date : String
deriving Repr, DecidableEq

/-- The for-loop of fetch_bnr_rates over the Rate elements, threading the
exchange_rates dict. An entry with non-numeric text raises (float fails)
whatever its currency attribute is; an entry with a falsy currency code or
a falsy (zero) rate value is skipped; a zero multiplier raises
(ZeroDivisionError); otherwise rate_value / multiplier is stored. -/
def processEntries : List RateEntry → RatesMap → Except ServiceError RatesMap
  | [], acc => .ok acc
  | e :: es, acc =>
    match e.text with
    | none => .error .fetchFailed
    | some v =>
      match e.currency with
      | none => processEntries es acc
      | some c =>
        if c ≠ "" ∧ v ≠ 0 then
          let m := e.multiplier.getD 1
          if m = 0 then .error .fetchFailed
          else processEntries es (dictInsert acc c (v / (m : ℚ)))
        else processEntries es acc

/-- fetch_bnr_rates as a pure function of the would-be HTTP response; today
is what datetime.now().strftime("%Y-%m-%d") returns, used only as the
default when the Cube has no date attribute. -/
def fetch_bnr_rates (today : String) (resp : Option HttpResponse) :
    Except ServiceError FetchData :=
  match resp with
  | none => .error .fetchFailed
  | some r =>
    if 200 ≤ r.status ∧ r.status < 300 then
      match r.body with
      | none => .error .fetchFailed
      | some doc =>
        match doc.cube with
        | none => .error .fetchFailed
        | some cube =>
          let rate_date := cube.dateAttr.getD today
          match processEntries cube.entries [("RON", 1)] with
          | .error e => .error e
          | .ok rates => .ok ⟨rates, rate_date⟩
    else .error .fetchFailed

/-- INSERT OR REPLACE INTO exchange_rates under UNIQUE(currency_code, date). -/
def upsertRow (store : Store) (c : String) (v : ℚ) (d : String) : Store :=
  store.filter (fun r => ¬(r.currency_code = c ∧ r.date = d)) ++ [⟨c, v, d⟩]

/-- save_rates_to_database: upsert every (currency, rate) under rate_date. -/
def save_rates_to_database (store : Store) (rates : RatesMap) (rate_date : String) :
    Store :=
  rates.foldl (fun s p => upsertRow s p.1 p.2 rate_date) store

/-- Turn the rows of a SELECT into the rates dict the code builds. -/
def rowsToDict (rows : List Row) : RatesMap :=
  rows.foldl (fun acc r => dictInsert acc r.currency_code r.rate) []

/-- get_cached_rates: the rows dated rate_date, as a dict; None when there
are no such rows. -/
def get_cached_rates (rate_date : String) (store : Store) : Option RatesMap :=
  let rows := store.filter (fun r => r.date = rate_date)
  if rows.isEmpty then none else some (rowsToDict rows)

/-- SELECT MAX(date) FROM exchange_rates: the TEXT column maximum, i.e. the
lexicographically greatest date string, none on an empty table. -/
def maxDate : Store → Option String
  | [] => none
  | r :: rs =>
    match maxDate rs with
    | none => some r.date
    | some d => some (max r.date d)

/-- What get_latest_rates returns: the rates dict, the date and the source
tag ("cache", "bnr" or "cache-fallback"). -/
structure RatesResult where
  rates : RatesMap
  date : String
  source : String
deriving Repr, DecidableEq

/-- A whole observable outcome of one get_latest_rates call: its return
value, the store it leaves behind, and whether fetch_bnr_rates ran. -/
structure GetOutcome where
  result : RatesResult
  store : Store
  fetchInvoked : Bool
deriving Repr, DecidableEq

/-- get_latest_rates: today cache hit, else fetch-and-save, else the rows of
the most recent date, else the NoRatesAvailable failure. -/
def get_latest_rates (today : String) (store : Store) (resp : Option HttpResponse) :
    Except ServiceError GetOutcome :=
  match get_cached_rates today store with
  | some cached => .ok ⟨⟨cached, today, "cache"⟩, store, false⟩
  | none =>
    match fetch_bnr_rates today resp with
    | .ok data =>
      let store' := save_rates_to_database store data.exchangeRates data.date
      .ok ⟨⟨data.exchangeRates, data.date, "bnr"⟩, store', true⟩
    | .error _ =>
      match maxDate store with
      | none => .error .noRatesAvailable
      | some d =>
        .ok ⟨⟨rowsToDict (store.filter (fun r => r.date = d)), d, "cache-fallback"⟩,
             store, true⟩

end CurrencyService

namespace CurrencyService

/-! ### Helper lemmas about the converter and rounding -/

/-- Evaluation of convert_currency on distinct currencies that are both
present in the rates map, with a nonzero target rate. -/
theorem convert_eq_ok (amount : ℚ) (fc tc : String) (rates : RatesMap)
    (rf rt : ℚ) (hne : fc ≠ tc)
    (hf : dictLookup rates fc = some rf) (ht : dictLookup rates tc = some rt)
    (hrt : rt ≠ 0) :
    convert_currency amount fc tc rates = .ok (round2 (amount * rf / rt)) := by
  simp [convert_currency, if_neg hne, hf, ht, hrt]

/-- Rounding to the nearest integer, ties to even, moves a rational by at
most one half. -/
theorem abs_roundHalfEven_sub (q : ℚ) : |(roundHalfEven q : ℚ) - q| ≤ 1/2 := by
  have hfl : (⌊q⌋ : ℚ) ≤ q := Int.floor_le q
  have hfl' : q < ⌊q⌋ + 1 := Int.lt_floor_add_one q
  unfold roundHalfEven
  by_cases h1 : q - (⌊q⌋ : ℚ) < 1/2
  · rw [if_pos h1, abs_sub_comm, abs_of_nonneg (by linarith)]
    linarith
  · rw [if_neg h1]
    by_cases h2 : 1/2 < q - (⌊q⌋ : ℚ)
    · rw [if_pos h2]
      push_cast
      rw [abs_of_nonneg (by linarith)]
      linarith
    · rw [if_neg h2]
      have heq : q - (⌊q⌋ : ℚ) = 1/2 := le_antisymm (not_lt.mp h2) (not_lt.mp h1)
      by_cases h3 : ⌊q⌋ % 2 = 0
      · rw [if_pos h3, abs_sub_comm, abs_of_nonneg (by linarith)]
        linarith
      · rw [if_neg h3]
        push_cast
        rw [abs_of_nonneg (by linarith)]
        linarith

/-- Rounding to two decimal places moves a rational by at most 1/200. -/
theorem abs_round2_sub (q : ℚ) : |round2 q - q| ≤ 1/200 := by
  have h := abs_roundHalfEven_sub (q * 100)
  have : round2 q - q = ((roundHalfEven (q * 100) : ℚ) - q * 100) / 100 := by
    unfold round2; ring
  rw [this, abs_div]
  rw [show |(100:ℚ)| = 100 by norm_num]
  linarith [h]

end CurrencyService

namespace CurrencyService

/-! ### Claim theorems about the converter -/

/-- C7: for every amount, currency code x and rates map — including maps in
which x is absent — convert_currency amount x x rates returns amount
unchanged and never fails with rateNotFound: the equal-currency branch
returns before any rate lookup. -/
theorem claim_convert_identity (amount : ℚ) (x : String) (rates : RatesMap) :
    convert_currency amount x x rates = .ok amount := by
  simp [convert_currency]

/-- C4 counterexample: with both codes present but a zero target rate —
rates A = 1.0, B = 0.0 — the code raises ZeroDivisionError at the division
(line 174), surfaced raw to the caller; it does not return the claimed
rounded pivot value (no .ok at all, and not a rateNotFound either). -/
theorem claim_convert_distinct_counterexample :
    convert_currency 100 "A" "B" [("A", 1), ("B", 0)] = .error .zeroDivision ∧
    (Except.error ServiceError.zeroDivision : Except ServiceError ℚ) ≠
      .ok (round2 (100 * 1 / 0)) ∧
    (Except.error ServiceError.zeroDivision : Except ServiceError ℚ) ≠
      .error (.rateNotFound "A" "B") := by
  refine ⟨?_, by simp, by simp⟩
  simp [convert_currency, dictLookup]

/-- C4 amended: for distinct currency codes, convert_currency fails with
rateNotFound when either code is absent from the caller-supplied rates map;
when both are present and the target rate is nonzero it returns
amount * rates[from_currency] / rates[to_currency] rounded to two decimals;
when both are present and the target rate is 0.0 the division raises
ZeroDivisionError, surfaced raw; in particular with rates RON = 1.0,
EUR = 5.0, converting 100 RON to EUR gives 20.0 and 20 EUR to RON gives
100.0. -/
theorem claim_convert_distinct_amended (amount : ℚ)
    (from_currency to_currency : String)
    (rates : RatesMap) (hne : from_currency ≠ to_currency) :
    ((dictLookup rates from_currency = none ∨ dictLookup rates to_currency = none) →
       convert_currency amount from_currency to_currency rates =
         .error (.rateNotFound from_currency to_currency)) ∧
    (∀ rf rt, dictLookup rates from_currency = some rf →
       dictLookup rates to_currency = some rt → rt ≠ 0 →
       convert_currency amount from_currency to_currency rates =
         .ok (round2 (amount * rf / rt))) ∧
    (∀ rf, dictLookup rates from_currency = some rf →
       dictLookup rates to_currency = some 0 →
       convert_currency amount from_currency to_currency rates =
         .error .zeroDivision) ∧
    convert_currency 100 "RON" "EUR" [("RON", 1), ("EUR", 5)] = .ok 20 ∧
    convert_currency 20 "EUR" "RON" [("RON", 1), ("EUR", 5)] = .ok 100 := by
  refine ⟨fun h => ?_,
    fun rf rt h1 h2 hrt => convert_eq_ok _ _ _ _ _ _ hne h1 h2 hrt,
    fun rf h1 h2 => ?_, ?_, ?_⟩
  · simp [convert_currency, if_neg hne, if_pos h]
  · simp [convert_currency, if_neg hne, h1, h2]
  · rw [convert_eq_ok 100 "RON" "EUR" _ 1 5 (by decide) (by decide) (by decide)
        (by norm_num)]
    simp only [round2, roundHalfEven]
    norm_num
  · rw [convert_eq_ok 20 "EUR" "RON" _ 5 1 (by decide) (by decide) (by decide)
        (by norm_num)]
    simp only [round2, roundHalfEven]
    norm_num

/-- Witness for the amended C4 at concrete inputs: an empty rates map fails
with rateNotFound, 100 RON converts to 20 EUR, and a zero target rate
raises the zero division. -/
theorem claim_convert_distinct_amended_witness :
    convert_currency 7 "USD" "GBP" [] = .error (.rateNotFound "USD" "GBP") ∧
    convert_currency 100 "RON" "EUR" [("RON", 1), ("EUR", 5)] = .ok 20 ∧
    convert_currency 100 "A" "B" [("A", 1), ("B", 0)] = .error .zeroDivision := by
  have h := claim_convert_distinct_amended 7 "USD" "GBP" [] (by decide)
  have h2 := claim_convert_distinct_amended 100 "A" "B" [("A", 1), ("B", 0)]
    (by decide)
  exact ⟨h.1 (Or.inl rfl), h.2.2.2.1, h2.2.2.1 1 (by decide) (by decide)⟩

end CurrencyService

namespace CurrencyService

/-- C6 counterexample: with rates X = 1.0 and Y = 1000.0 (both present),
converting amount 1 from X to Y yields 0.00 (0.001 rounds to two decimals
as 0), converting back yields 0.00, and the round trip misses the original
amount 1 by more than the claimed 0.01 tolerance. -/
theorem claim_roundtrip_counterexample :
    convert_currency 1 "X" "Y" [("X", 1), ("Y", 1000)] = .ok 0 ∧
    convert_currency 0 "Y" "X" [("X", 1), ("Y", 1000)] = .ok 0 ∧
    ¬(|(0:ℚ) - 1| ≤ 1/100) := by
  refine ⟨?_, ?_, by norm_num⟩
  · rw [convert_eq_ok 1 "X" "Y" _ 1 1000 (by decide) (by decide) (by decide)
        (by norm_num)]
    simp only [round2, roundHalfEven]
    norm_num
  · rw [convert_eq_ok 0 "Y" "X" _ 1000 1 (by decide) (by decide) (by decide)
        (by norm_num)]
    simp only [round2, roundHalfEven]
    norm_num

/-- C6 amended: for positive rates rx of x and ry of y, a round trip
x → y → x lands within (1 + ry/rx)/200 of the original amount — each of the
two two-decimal roundings contributes at most 1/200, the first being
amplified by ry/rx on the way back; the claimed 0.01 tolerance therefore
holds whenever ry ≤ rx, and the counterexample (ry/rx = 1000) shows the
restriction is needed. -/
theorem claim_roundtrip_amended (amount : ℚ) (x y : String) (rates : RatesMap)
    (rx ry c1 c2 : ℚ)
    (hx : dictLookup rates x = some rx) (hy : dictLookup rates y = some ry)
    (hxpos : 0 < rx) (hypos : 0 < ry) (hne : x ≠ y)
    (h1 : convert_currency amount x y rates = .ok c1)
    (h2 : convert_currency c1 y x rates = .ok c2) :
    |c2 - amount| ≤ (1 + ry / rx) / 200 ∧ (ry ≤ rx → |c2 - amount| ≤ 1/100) := by
  have hrx : rx ≠ 0 := ne_of_gt hxpos
  have hry : ry ≠ 0 := ne_of_gt hypos
  have e1 : c1 = round2 (amount * rx / ry) :=
    Except.ok.inj (h1.symm.trans (convert_eq_ok amount x y rates rx ry hne hx hy hry))
  have e2 : c2 = round2 (c1 * ry / rx) :=
    Except.ok.inj (h2.symm.trans (convert_eq_ok c1 y x rates ry rx hne.symm hy hx hrx))
  have b1 : |c1 - amount * rx / ry| ≤ 1/200 := by rw [e1]; exact abs_round2_sub _
  have b2 : |c2 - c1 * ry / rx| ≤ 1/200 := by rw [e2]; exact abs_round2_sub _
  have hdiv : 0 < ry / rx := div_pos hypos hxpos
  have key : c2 - amount = (c2 - c1 * ry / rx) + (c1 - amount * rx / ry) * (ry / rx) := by
    field_simp
    ring
  have main : |c2 - amount| ≤ (1 + ry / rx) / 200 := by
    calc |c2 - amount|
        = |(c2 - c1 * ry / rx) + (c1 - amount * rx / ry) * (ry / rx)| := by rw [key]
      _ ≤ |c2 - c1 * ry / rx| + |(c1 - amount * rx / ry) * (ry / rx)| := abs_add _ _
      _ = |c2 - c1 * ry / rx| + |c1 - amount * rx / ry| * (ry / rx) := by
          rw [abs_mul, abs_of_pos hdiv]
      _ ≤ 1/200 + (1/200) * (ry / rx) := by
          have := mul_le_mul_of_nonneg_right b1 (le_of_lt hdiv)
          linarith
      _ = (1 + ry / rx) / 200 := by ring
  refine ⟨main, fun hle => ?_⟩
  have hone : ry / rx ≤ 1 := (div_le_one hxpos).mpr hle
  linarith

/-- Witness for the amended C6 at a concrete input: rates A = 2.0, B = 1.0,
round-tripping amount 1 through B returns exactly 1, within the bound. -/
theorem claim_roundtrip_amended_witness :
    |(1:ℚ) - 1| ≤ (1 + (1:ℚ) / 2) / 200 := by
  have hab : convert_currency 1 "A" "B" [("A", 2), ("B", 1)] = .ok 2 := by
    rw [convert_eq_ok 1 "A" "B" _ 2 1 (by decide) (by decide) (by decide)
        (by norm_num)]
    simp only [round2, roundHalfEven]
    norm_num
  have hba : convert_currency 2 "B" "A" [("A", 2), ("B", 1)] = .ok 1 := by
    rw [convert_eq_ok 2 "B" "A" _ 1 2 (by decide) (by decide) (by decide)
        (by norm_num)]
    simp only [round2, roundHalfEven]
    norm_num
  exact (claim_roundtrip_amended 1 "A" "B" [("A", 2), ("B", 1)] 2 1 2 1
    (by decide) (by decide) (by norm_num) (by norm_num) (by decide) hab hba).1

end CurrencyService

namespace CurrencyService

/-! ### Helper lemmas about the fetch normalization loop -/

/-- The currency attributes present among a list of Rate elements. -/
def entryCodes (es : List RateEntry) : List String :=
  es.filterMap RateEntry.currency

theorem entryCodes_cons_none (e : RateEntry) (es : List RateEntry)
    (h : e.currency = none) : entryCodes (e :: es) = entryCodes es := by
  simp [entryCodes, List.filterMap_cons, h]

theorem entryCodes_cons_some (e : RateEntry) (es : List RateEntry) (c0 : String)
    (h : e.currency = some c0) : entryCodes (e :: es) = c0 :: entryCodes es := by
  simp [entryCodes, List.filterMap_cons, h]

theorem dictLookup_dictInsert_self (m : RatesMap) (c : String) (v : ℚ) :
    dictLookup (dictInsert m c v) c = some v := by
  simp [dictInsert, dictLookup]

theorem dictLookup_removeKey_ne (m : RatesMap) (c c' : String) (h : c' ≠ c) :
    dictLookup (removeKey m c) c' = dictLookup m c' := by
  induction m with
  | nil => rfl
  | cons p rest ih =>
    obtain ⟨k, v⟩ := p
    by_cases hkc : k = c
    · have hkc' : ¬ k = c' := fun e => h (e.symm.trans hkc)
      rw [removeKey, if_pos hkc, ih, dictLookup, if_neg hkc']
    · rw [removeKey, if_neg hkc, dictLookup, dictLookup]
      by_cases hk : k = c'
      · rw [if_pos hk, if_pos hk]
      · rw [if_neg hk, if_neg hk, ih]

theorem dictLookup_dictInsert_ne (m : RatesMap) (c : String) (v : ℚ)
    (c' : String) (h : c' ≠ c) :
    dictLookup (dictInsert m c v) c' = dictLookup m c' := by
  have hcc : ¬ c = c' := fun hc => h hc.symm
  rw [dictInsert, dictLookup, if_neg hcc, dictLookup_removeKey_ne m c c' h]

/-- Everything dictLookup finds after a dictInsert is the new value or was
already found before. -/
theorem dictLookup_dictInsert_cases (m : RatesMap) (c : String) (v : ℚ)
    (c' : String) (r : ℚ) (h : dictLookup (dictInsert m c v) c' = some r) :
    r = v ∨ dictLookup m c' = some r := by
  by_cases hc : c' = c
  · subst hc
    rw [dictLookup_dictInsert_self] at h
    exact Or.inl (Option.some.inj h).symm
  · rw [dictLookup_dictInsert_ne m c v c' hc] at h
    exact Or.inr h

/-- The loop never fails on entries whose text is numeric and whose
(defaulted) multiplier is nonzero — in particular a zero rate value is not
an error. -/
theorem processEntries_ok (es : List RateEntry) (acc : RatesMap)
    (h : ∀ e ∈ es, e.text ≠ none ∧ e.multiplier.getD 1 ≠ 0) :
    ∃ m, processEntries es acc = .ok m := by
  induction es generalizing acc with
  | nil => exact ⟨acc, rfl⟩
  | cons e es ih =>
    obtain ⟨htext, hmul⟩ := h e (List.mem_cons_self e es)
    have htail : ∀ e ∈ es, e.text ≠ none ∧ e.multiplier.getD 1 ≠ 0 :=
      fun e' he' => h e' (List.mem_cons_of_mem e he')
    cases hv : e.text with
    | none => exact absurd hv htext
    | some v =>
      cases hc : e.currency with
      | none => simpa [processEntries, hv, hc] using ih acc htail
      | some c =>
        by_cases hcv : c ≠ "" ∧ v ≠ 0
        · have := ih (dictInsert acc c (v / (e.multiplier.getD 1 : ℚ))) htail
          simpa [processEntries, hv, hc, hcv, hmul] using this
        · simpa [processEntries, hv, hc, hcv] using ih acc htail

/-- A lookup of a code none of the remaining entries carries is unchanged
by the rest of the loop. -/
theorem processEntries_lookup_notMem (es : List RateEntry) (acc m : RatesMap)
    (c : String) (h : processEntries es acc = .ok m) (hc : c ∉ entryCodes es) :
    dictLookup m c = dictLookup acc c := by
  induction es generalizing acc with
  | nil =>
    simp only [processEntries] at h
    exact (Except.ok.inj h) ▸ rfl
  | cons e es ih =>
    cases hv : e.text with
    | none => simp [processEntries, hv] at h
    | some v =>
      cases hcur : e.currency with
      | none =>
        have hc' : c ∉ entryCodes es := by
          rw [entryCodes_cons_none e es hcur] at hc; exact hc
        rw [processEntries, hv] at h
        simp only [hcur] at h
        exact ih acc h hc'
      | some c0 =>
        rw [entryCodes_cons_some e es c0 hcur] at hc
        have hne : c ≠ c0 := fun he => hc (he ▸ List.mem_cons_self c0 _)
        have hc' : c ∉ entryCodes es := fun hmem => hc (List.mem_cons_of_mem c0 hmem)
        rw [processEntries, hv] at h
        simp only [hcur] at h
        by_cases hcv : c0 ≠ "" ∧ v ≠ 0
        · rw [if_pos hcv] at h
          by_cases hm : e.multiplier.getD 1 = 0
          · rw [if_pos hm] at h; exact absurd h (by simp)
          · rw [if_neg hm] at h
            rw [ih _ h hc']
            exact dictLookup_dictInsert_ne _ _ _ _ hne
        · rw [if_neg hcv] at h
          exact ih acc h hc'

end CurrencyService

namespace CurrencyService

/-- A lookup of a code that no remaining entry overwrites — every remaining
entry carrying that code has a zero value, so the loop skips it — is
unchanged by the rest of the loop. -/
theorem processEntries_lookup_not_overwritten (es : List RateEntry)
    (acc m : RatesMap) (c : String) (h : processEntries es acc = .ok m)
    (hno : ∀ e' ∈ es, e'.currency = some c → ∀ v', e'.text = some v' → v' = 0) :
    dictLookup m c = dictLookup acc c := by
  induction es generalizing acc with
  | nil =>
    simp only [processEntries] at h
    exact (Except.ok.inj h) ▸ rfl
  | cons e0 es ih =>
    cases hv : e0.text with
    | none => simp [processEntries, hv] at h
    | some v =>
      have hno' : ∀ e' ∈ es, e'.currency = some c → ∀ v', e'.text = some v' → v' = 0 :=
        fun e' he' => hno e' (List.mem_cons_of_mem e0 he')
      cases hcur : e0.currency with
      | none =>
        rw [processEntries, hv] at h
        simp only [hcur] at h
        exact ih acc h hno'
      | some c0 =>
        rw [processEntries, hv] at h
        simp only [hcur] at h
        by_cases hcv : c0 ≠ "" ∧ v ≠ 0
        · rw [if_pos hcv] at h
          by_cases hm : e0.multiplier.getD 1 = 0
          · rw [if_pos hm] at h; exact absurd h (by simp)
          · rw [if_neg hm] at h
            have hc0 : c0 ≠ c := by
              intro he
              exact hcv.2 (hno e0 (List.mem_cons_self e0 es) (he ▸ hcur) v hv)
            rw [ih _ h hno']
            exact dictLookup_dictInsert_ne _ _ _ _ (Ne.symm hc0)
        · rw [if_neg hcv] at h
          exact ih acc h hno'

/-- The normalization rule of the loop, duplicate codes included: an entry
with a nonempty code and a nonzero numeric value whose code is overwritten
by no later entry (every later entry carrying the code has a zero value)
ends up in the dict with rate value / multiplier. -/
theorem processEntries_lookup_last (l1 : List RateEntry) (e : RateEntry)
    (l2 : List RateEntry) (acc m : RatesMap)
    (h : processEntries (l1 ++ e :: l2) acc = .ok m)
    (c : String) (v : ℚ) (hc : e.currency = some c) (hcne : c ≠ "")
    (hv : e.text = some v) (hv0 : v ≠ 0)
    (hlast : ∀ e' ∈ l2, e'.currency = some c → ∀ v', e'.text = some v' → v' = 0) :
    dictLookup m c = some (v / (e.multiplier.getD 1 : ℚ)) := by
  induction l1 generalizing acc with
  | nil =>
    simp only [List.nil_append] at h
    rw [processEntries, hv] at h
    simp only [hc] at h
    rw [if_pos ⟨hcne, hv0⟩] at h
    by_cases hm : e.multiplier.getD 1 = 0
    · rw [if_pos hm] at h; exact absurd h (by simp)
    · rw [if_neg hm] at h
      rw [processEntries_lookup_not_overwritten l2 _ m c h hlast]
      exact dictLookup_dictInsert_self _ _ _
  | cons p l1 ih =>
    simp only [List.cons_append] at h
    cases ht : p.text with
    | none => rw [processEntries, ht] at h; exact absurd h (by simp)
    | some v0 =>
      rw [processEntries, ht] at h
      cases hcur : p.currency with
      | none =>
        simp only [hcur] at h
        exact ih acc h
      | some c0 =>
        simp only [hcur] at h
        by_cases hcv : c0 ≠ "" ∧ v0 ≠ 0
        · rw [if_pos hcv] at h
          by_cases hm : p.multiplier.getD 1 = 0
          · rw [if_pos hm] at h; exact absurd h (by simp)
          · rw [if_neg hm] at h
            exact ih _ h
        · rw [if_neg hcv] at h
          exact ih acc h

/-- A zero-valued entry is skipped by the loop wherever it stands: deleting
it from the list leaves the loop's outcome unchanged. -/
theorem processEntries_zero_entry_skipped (l1 : List RateEntry) (e : RateEntry)
    (l2 : List RateEntry) (he : e.text = some 0) (acc : RatesMap) :
    processEntries (l1 ++ e :: l2) acc = processEntries (l1 ++ l2) acc := by
  induction l1 generalizing acc with
  | nil =>
    simp only [List.nil_append]
    cases hc : e.currency with
    | none => simp [processEntries, he, hc]
    | some c => simp [processEntries, he, hc]
  | cons p l1 ih =>
    simp only [List.cons_append]
    cases ht : p.text with
    | none => simp [processEntries, ht]
    | some v =>
      cases hcur : p.currency with
      | none =>
        simp only [processEntries, ht, hcur]
        exact ih acc
      | some c0 =>
        simp only [processEntries, ht, hcur]
        by_cases hcv : c0 ≠ "" ∧ v ≠ 0
        · rw [if_pos hcv, if_pos hcv]
          by_cases hm : p.multiplier.getD 1 = 0
          · rw [if_pos hm, if_pos hm]
          · rw [if_neg hm, if_neg hm]
            exact ih _
        · rw [if_neg hcv, if_neg hcv]
          exact ih acc

/-- Every rate the loop leaves in the dict is nonzero, provided every rate
already in the dict is: the loop only inserts v / m with v ≠ 0 and m ≠ 0. -/
theorem processEntries_nonzero (es : List RateEntry) (acc m : RatesMap)
    (hacc : ∀ c r, dictLookup acc c = some r → r ≠ 0)
    (h : processEntries es acc = .ok m) :
    ∀ c r, dictLookup m c = some r → r ≠ 0 := by
  induction es generalizing acc with
  | nil =>
    simp only [processEntries] at h
    exact (Except.ok.inj h) ▸ hacc
  | cons e es ih =>
    cases hv : e.text with
    | none => simp [processEntries, hv] at h
    | some v =>
      cases hcur : e.currency with
      | none =>
        rw [processEntries, hv] at h
        simp only [hcur] at h
        exact ih acc hacc h
      | some c0 =>
        rw [processEntries, hv] at h
        simp only [hcur] at h
        by_cases hcv : c0 ≠ "" ∧ v ≠ 0
        · rw [if_pos hcv] at h
          by_cases hm : e.multiplier.getD 1 = 0
          · rw [if_pos hm] at h; exact absurd h (by simp)
          · rw [if_neg hm] at h
            refine ih _ ?_ h
            intro c r hr
            rcases dictLookup_dictInsert_cases _ _ _ _ _ hr with hre | hold
            · subst hre
              exact div_ne_zero hcv.2 (Int.cast_ne_zero.mpr hm)
            · exact hacc c r hold
        · rw [if_neg hcv] at h
          exact ih acc hacc h

/-- A non-numeric rate value anywhere in the list makes the loop raise. -/
theorem processEntries_text_none (es : List RateEntry) (acc : RatesMap)
    (h : ∃ e ∈ es, e.text = none) :
    processEntries es acc = .error .fetchFailed := by
  induction es generalizing acc with
  | nil => obtain ⟨e, he, _⟩ := h; cases he
  | cons e0 es ih =>
    obtain ⟨e, he, htext⟩ := h
    rcases List.mem_cons.mp he with he0 | hes
    · subst he0
      rw [processEntries, htext]
    · cases hv : e0.text with
      | none => rw [processEntries, hv]
      | some v =>
        have htail : processEntries es = fun acc => Except.error ServiceError.fetchFailed := by
          funext acc'
          exact ih acc' ⟨e, hes, htext⟩
        cases hcur : e0.currency with
        | none =>
          rw [processEntries, hv]
          simp only [hcur]
          exact ih acc ⟨e, hes, htext⟩
        | some c0 =>
          rw [processEntries, hv]
          simp only [hcur]
          by_cases hcv : c0 ≠ "" ∧ v ≠ 0
          · rw [if_pos hcv]
            by_cases hm : e0.multiplier.getD 1 = 0
            · rw [if_pos hm]
            · rw [if_neg hm]
              exact ih _ ⟨e, hes, htext⟩
          · rw [if_neg hcv]
            exact ih acc ⟨e, hes, htext⟩

end CurrencyService

namespace CurrencyService

/-- Inversion of a successful fetch: the response was present, 2xx, carried
a parsed document with a Cube, the loop succeeded on its entries starting
from the synthesized base currency, and the returned date is the Cube date
attribute defaulted to today. -/
theorem fetch_ok_inv (today : String) (resp : Option HttpResponse)
    (data : FetchData) (h : fetch_bnr_rates today resp = .ok data) :
    ∃ r doc cube, resp = some r ∧ r.body = some doc ∧ doc.cube = some cube ∧
      processEntries cube.entries [("RON", 1)] = .ok data.exchangeRates ∧
      data.date = cube.dateAttr.getD today ∧ 200 ≤ r.status ∧ r.status < 300 := by
  cases resp with
  | none => simp [fetch_bnr_rates] at h
  | some r =>
    rw [fetch_bnr_rates] at h
    by_cases hst : 200 ≤ r.status ∧ r.status < 300
    · rw [if_pos hst] at h
      cases hb : r.body with
      | none => simp only [hb] at h; exact absurd h (by simp)
      | some doc =>
        simp only [hb] at h
        cases hcube : doc.cube with
        | none => simp only [hcube] at h; exact absurd h (by simp)
        | some cube =>
          simp only [hcube] at h
          cases hp : processEntries cube.entries [("RON", 1)] with
          | error e => simp only [hp] at h; exact absurd h (by simp)
          | ok rates =>
            simp only [hp] at h
            have hdata : data = ⟨rates, cube.dateAttr.getD today⟩ :=
              (Except.ok.inj h).symm
            refine ⟨r, doc, cube, rfl, hb, hcube, ?_, ?_, hst.1, hst.2⟩
            · rw [hdata]
              exact hp
            · rw [hdata]
    · rw [if_neg hst] at h
      exact absurd h (by simp)

/-- Evaluation of the fetch on a concrete healthy response: one EUR entry
with value 5 and no multiplier attribute, document date 2024-01-10. -/
theorem fetch_example_eval :
    fetch_bnr_rates "2024-01-15" (some ⟨200, some ⟨some ⟨some "2024-01-10",
      [⟨some "EUR", none, some 5⟩]⟩⟩⟩) =
    .ok ⟨[("EUR", 5), ("RON", 1)], "2024-01-10"⟩ := by
  rw [fetch_bnr_rates]
  rw [if_pos (by constructor <;> norm_num)]
  norm_num [processEntries, dictInsert, removeKey]
  simp

end CurrencyService

namespace CurrencyService

/-! ### Claim theorems about the fetch -/

/-- C5 counterexample: a healthy 2xx response whose single document entry is
USD with multiplier 1 and published value 0 fetches successfully, yet the
snapshot omits USD entirely — its rate is not the claimed V / M = 0 / 1 (it
has no rate at all), because the code's truthiness test on rate_value drops
zero values. -/
theorem claim_fetch_normalization_counterexample :
    fetch_bnr_rates "2024-01-15" (some ⟨200, some ⟨some ⟨some "2024-01-15",
      [⟨some "USD", some 1, some 0⟩]⟩⟩⟩) = .ok ⟨[("RON", 1)], "2024-01-15"⟩ ∧
    dictLookup [(("RON" : String), (1 : ℚ))] "USD" = none := by
  constructor
  · rw [fetch_bnr_rates]
    rw [if_pos (by constructor <;> norm_num)]
    norm_num [processEntries]
  · decide

/-- C5 amended: for every successful fetch — duplicate currency codes
included — every document entry with a nonempty currency code and a NONZERO
numeric published value V that is not overwritten later (every later entry
carrying the same code has a zero value) appears in the snapshot with rate
V / M, the multiplier M defaulting to 1 when the attribute is absent; every
entry whose published value is 0 is omitted from the snapshot, universally:
deleting any such entry from the document leaves the fetched result — the
whole snapshot and its date — unchanged, and it is not an error; and the
base currency RON, when absent from the document, is present with rate
exactly 1.0. -/
theorem claim_fetch_normalization_amended (today : String) (status : Nat)
    (dateAttr : Option String) (entries : List RateEntry) (data : FetchData)
    (hok : fetch_bnr_rates today
      (some ⟨status, some ⟨some ⟨dateAttr, entries⟩⟩⟩) = .ok data) :
    (∀ l1 e l2, entries = l1 ++ e :: l2 → ∀ c v, e.currency = some c →
       c ≠ "" → e.text = some v → v ≠ 0 →
       (∀ e' ∈ l2, e'.currency = some c → ∀ v', e'.text = some v' → v' = 0) →
       dictLookup data.exchangeRates c = some (v / (e.multiplier.getD 1 : ℚ))) ∧
    (∀ l1 e l2, entries = l1 ++ e :: l2 → e.text = some 0 →
       fetch_bnr_rates today
         (some ⟨status, some ⟨some ⟨dateAttr, l1 ++ l2⟩⟩⟩) = .ok data) ∧
    ("RON" ∉ entryCodes entries →
       dictLookup data.exchangeRates "RON" = some 1) := by
  obtain ⟨r, doc, cube, hr, hb, hcube, hp, hdate, hst1, hst2⟩ :=
    fetch_ok_inv today _ data hok
  have hrr : r = ⟨status, some ⟨some ⟨dateAttr, entries⟩⟩⟩ :=
    (Option.some.inj hr).symm
  subst hrr
  have hdoc : doc = ⟨some ⟨dateAttr, entries⟩⟩ := (Option.some.inj hb).symm
  subst hdoc
  have hcc : cube = ⟨dateAttr, entries⟩ := (Option.some.inj hcube).symm
  subst hcc
  refine ⟨?_, ?_, ?_⟩
  · intro l1 e l2 hsplit c v hc hcne hv hv0 hlast
    subst hsplit
    exact processEntries_lookup_last l1 e l2 _ _ hp c v hc hcne hv hv0 hlast
  · intro l1 e l2 hsplit hzero
    subst hsplit
    have hps : processEntries (l1 ++ l2) [(("RON" : String), (1 : ℚ))] =
        .ok data.exchangeRates := by
      rw [← processEntries_zero_entry_skipped l1 e l2 hzero]
      exact hp
    rw [fetch_bnr_rates]
    rw [if_pos ⟨hst1, hst2⟩]
    simp only [hps]
    have hd : dateAttr.getD today = data.date := hdate.symm
    rw [hd]
  · intro hron
    rw [processEntries_lookup_notMem entries _ _ "RON" hp hron]
    decide

/-- Witness for the amended C5 at a concrete input: a document with a
single EUR entry of value 5 and no multiplier yields a snapshot with
EUR = 5 / 1 and the synthesized RON = 1. -/
theorem claim_fetch_normalization_amended_witness :
    dictLookup [("EUR", 5), ("RON", 1)] "EUR" = some ((5 : ℚ) / ((1 : ℤ) : ℚ)) ∧
    dictLookup [("EUR", 5), ("RON", 1)] "RON" = some 1 := by
  have h := claim_fetch_normalization_amended "2024-01-15" 200 (some "2024-01-10")
    [⟨some "EUR", none, some 5⟩] ⟨[("EUR", 5), ("RON", 1)], "2024-01-10"⟩
    fetch_example_eval
  refine ⟨?_, h.2.2 (by decide)⟩
  exact h.1 [] ⟨some "EUR", none, some 5⟩ [] rfl "EUR" 5 rfl (by decide) rfl
    (by norm_num) (by simp)

/-- C8: fetch_bnr_rates fails — with the single wrapped fetch failure the
code raises for every cause — on every malformed input: a missing response
(timeout or transport error), a non-2xx HTTP status, a body that is not
well-formed XML, a document without the Cube container, or any entry whose
rate value text is non-numeric; none of these is defaulted to a substitute
value. -/
theorem claim_fetch_error_on_malformed (today : String)
    (resp : Option HttpResponse)
    (h : resp = none ∨
      ∃ r, resp = some r ∧
        (¬(200 ≤ r.status ∧ r.status < 300) ∨
         r.body = none ∨
         (∃ doc, r.body = some doc ∧
           (doc.cube = none ∨
            ∃ cube, doc.cube = some cube ∧ ∃ e ∈ cube.entries, e.text = none)))) :
    fetch_bnr_rates today resp = .error .fetchFailed := by
  rcases h with rfl | ⟨r, rfl, hbad⟩
  · rfl
  · rw [fetch_bnr_rates]
    by_cases hst : 200 ≤ r.status ∧ r.status < 300
    · rw [if_pos hst]
      rcases hbad with hst' | hbody | ⟨doc, hdoc, hcube⟩
      · exact absurd hst hst'
      · rw [hbody]
      · simp only [hdoc]
        rcases hcube with hnone | ⟨cube, hcube, hent⟩
        · rw [hnone]
        · simp only [hcube]
          rw [processEntries_text_none cube.entries _ hent]
    · rw [if_neg hst]

/-- Witness for C8 at a concrete input: a 404 response with no parseable
body makes the fetch fail. -/
theorem claim_fetch_error_on_malformed_witness :
    fetch_bnr_rates "2024-01-15" (some ⟨404, none⟩) = .error .fetchFailed :=
  claim_fetch_error_on_malformed "2024-01-15" (some ⟨404, none⟩)
    (Or.inr ⟨⟨404, none⟩, rfl, Or.inl (by decide)⟩)

/-- C9: every snapshot a successful fetch produces holds only nonzero rates
(zero-valued document entries are omitted and never stored, the synthesized
base rate is 1); a zero rate value is not an error (the loop succeeds on
any entries with numeric text and nonzero multiplier, zero values
included); and consequently converting with such a snapshot divides by the
nonzero rate of the target currency. -/
theorem claim_fetch_rates_nonzero (today : String) (resp : Option HttpResponse)
    (data : FetchData) (h : fetch_bnr_rates today resp = .ok data) :
    (∀ c r, dictLookup data.exchangeRates c = some r → r ≠ 0) ∧
    (∀ entries acc, (∀ e ∈ entries, e.text ≠ none ∧ e.multiplier.getD 1 ≠ 0) →
       ∃ m, processEntries entries acc = .ok m) ∧
    (∀ amount fc tc rf rt, fc ≠ tc →
       dictLookup data.exchangeRates fc = some rf →
       dictLookup data.exchangeRates tc = some rt →
       convert_currency amount fc tc data.exchangeRates =
         .ok (round2 (amount * rf / rt)) ∧ rt ≠ 0) := by
  obtain ⟨r, doc, cube, -, -, -, hp, -, -⟩ := fetch_ok_inv today resp data h
  have hinit : ∀ c r, dictLookup [(("RON" : String), (1 : ℚ))] c = some r → r ≠ 0 := by
    intro c r hr
    rw [dictLookup] at hr
    by_cases hc : "RON" = c
    · rw [if_pos hc] at hr
      exact (Option.some.inj hr) ▸ one_ne_zero
    · rw [if_neg hc] at hr
      exact absurd hr (by rw [dictLookup]; simp)
  have hnz := processEntries_nonzero cube.entries _ _ hinit hp
  refine ⟨hnz, fun entries acc hh => processEntries_ok entries acc hh, ?_⟩
  intro amount fc tc rf rt hne hf ht
  exact ⟨convert_eq_ok amount fc tc _ rf rt hne hf ht (hnz tc rt ht), hnz tc rt ht⟩

/-- Witness for C9 at a concrete input: the EUR rate of the concrete
fetched snapshot is nonzero. -/
theorem claim_fetch_rates_nonzero_witness : (5 : ℚ) ≠ 0 :=
  (claim_fetch_rates_nonzero "2024-01-15" (some ⟨200, some ⟨some ⟨some "2024-01-10",
      [⟨some "EUR", none, some 5⟩]⟩⟩⟩) ⟨[("EUR", 5), ("RON", 1)], "2024-01-10"⟩
    fetch_example_eval).1 "EUR" 5 (by decide)

end CurrencyService

namespace CurrencyService

/-! ### Helper lemmas about the store and get_latest_rates -/

theorem maxDate_eq_none_iff (store : Store) : maxDate store = none ↔ store = [] := by
  cases store with
  | nil => simp [maxDate]
  | cons r rs =>
    simp only [maxDate]
    cases maxDate rs <;> simp

theorem maxDate_mem (store : Store) (d : String) (h : maxDate store = some d) :
    ∃ r ∈ store, r.date = d := by
  induction store generalizing d with
  | nil => cases h
  | cons r rs ih =>
    rw [maxDate] at h
    cases hm : maxDate rs with
    | none =>
      rw [hm] at h
      exact ⟨r, List.mem_cons_self r rs, Option.some.inj h⟩
    | some d0 =>
      rw [hm] at h
      have hd : d = max r.date d0 := (Option.some.inj h).symm
      rcases max_cases r.date d0 with ⟨hmax, -⟩ | ⟨hmax, -⟩
      · exact ⟨r, List.mem_cons_self r rs, by rw [hd, hmax]⟩
      · obtain ⟨r0, hr0, hr0d⟩ := ih d0 hm
        refine ⟨r0, List.mem_cons_of_mem r hr0, ?_⟩
        rw [hd, hmax]
        exact hr0d

theorem maxDate_ge (store : Store) (d : String) (h : maxDate store = some d) :
    ∀ r ∈ store, r.date ≤ d := by
  induction store generalizing d with
  | nil => intro r hr; cases hr
  | cons r rs ih =>
    intro r' hr'
    rw [maxDate] at h
    cases hm : maxDate rs with
    | none =>
      rw [hm] at h
      have hrs : rs = [] := (maxDate_eq_none_iff rs).mp hm
      rcases List.mem_cons.mp hr' with he | hmem
      · rw [he, Option.some.inj h]
      · rw [hrs] at hmem; cases hmem
    | some d0 =>
      rw [hm] at h
      have hd : d = max r.date d0 := (Option.some.inj h).symm
      rcases List.mem_cons.mp hr' with he | hmem
      · rw [he, hd]; exact le_max_left _ _
      · calc r'.date ≤ d0 := ih d0 hm r' hmem
          _ ≤ d := by rw [hd]; exact le_max_right _ _

theorem get_cached_rates_of_miss (rate_date : String) (store : Store)
    (h : ∀ r ∈ store, r.date ≠ rate_date) :
    get_cached_rates rate_date store = none := by
  have hf : store.filter (fun r => r.date = rate_date) = [] :=
    List.filter_eq_nil_iff.mpr (by intro r hr; simpa using h r hr)
  rw [get_cached_rates]
  simp [hf]

theorem get_cached_rates_of_hit (rate_date : String) (store : Store)
    (h : ∃ r ∈ store, r.date = rate_date) :
    get_cached_rates rate_date store =
      some (rowsToDict (store.filter (fun r => r.date = rate_date))) := by
  obtain ⟨r, hr, hd⟩ := h
  have hmem : r ∈ store.filter (fun r => r.date = rate_date) :=
    List.mem_filter.mpr ⟨hr, by simp [hd]⟩
  have hne : store.filter (fun r => r.date = rate_date) ≠ [] :=
    List.ne_nil_of_mem hmem
  rw [get_cached_rates]
  rw [if_neg (by simpa [List.isEmpty_iff] using hne)]

/-- On a cache miss, get_latest_rates is the fetch-then-fallback chain. -/
theorem get_latest_rates_of_miss (today : String) (store : Store)
    (resp : Option HttpResponse) (hmiss : ∀ r ∈ store, r.date ≠ today) :
    get_latest_rates today store resp =
      match fetch_bnr_rates today resp with
      | .ok data =>
        .ok ⟨⟨data.exchangeRates, data.date, "bnr"⟩,
             save_rates_to_database store data.exchangeRates data.date, true⟩
      | .error _ =>
        match maxDate store with
        | none => .error .noRatesAvailable
        | some d =>
          .ok ⟨⟨rowsToDict (store.filter (fun r => r.date = d)), d,
                "cache-fallback"⟩, store, true⟩ := by
  rw [get_latest_rates, get_cached_rates_of_miss today store hmiss]

/-- Every row of the saved store was already there or carries the saved
date. -/
theorem mem_save_rates (store : Store) (rates : RatesMap) (d : String)
    (r : Row) (h : r ∈ save_rates_to_database store rates d) :
    r ∈ store ∨ r.date = d := by
  induction rates generalizing store with
  | nil => exact Or.inl h
  | cons p ps ih =>
    rw [save_rates_to_database, List.foldl_cons] at h
    rcases ih (upsertRow store p.1 p.2 d) h with hin | hd
    · rw [upsertRow] at hin
      rcases List.mem_append.mp hin with hf | hnew
      · exact Or.inl (List.mem_filter.mp hf).1
      · rcases List.mem_singleton.mp hnew with rfl
        exact Or.inr rfl
    · exact Or.inr hd

end CurrencyService

namespace CurrencyService

/-- On a same-day cache hit, get_latest_rates returns the cached dict with
source "cache" and does not change the store or invoke the fetch. -/
theorem get_latest_rates_of_hit (today : String) (store : Store)
    (resp : Option HttpResponse) (h : ∃ r ∈ store, r.date = today) :
    get_latest_rates today store resp =
      .ok ⟨⟨rowsToDict (store.filter (fun r => r.date = today)), today, "cache"⟩,
           store, false⟩ := by
  rw [get_latest_rates, get_cached_rates_of_hit today store h]

/-! ### Claim theorems about get_latest_rates -/

/-- C3: whenever the store holds a row dated exactly today, get_latest_rates
returns the dict built from today's rows with source "cache" and date
today, leaves the store unchanged, and never invokes fetch_bnr_rates
(fetchInvoked = false), whatever the network would have answered. -/
theorem claim_cache_hit_today (today : String) (store : Store)
    (resp : Option HttpResponse) (h : ∃ r ∈ store, r.date = today) :
    get_latest_rates today store resp =
      .ok ⟨⟨rowsToDict (store.filter (fun r => r.date = today)), today, "cache"⟩,
           store, false⟩ :=
  get_latest_rates_of_hit today store resp h

/-- Witness for C3 at a concrete input: a store holding EUR for today
answers from cache with fetchInvoked = false even though the simulated
network (none) would fail. -/
theorem claim_cache_hit_today_witness :
    get_latest_rates "2024-01-15" [⟨"EUR", 5, "2024-01-15"⟩] none =
      .ok ⟨⟨[("EUR", 5)], "2024-01-15", "cache"⟩,
           [⟨"EUR", 5, "2024-01-15"⟩], false⟩ := by
  have h := claim_cache_hit_today "2024-01-15" [⟨"EUR", 5, "2024-01-15"⟩] none
    ⟨⟨"EUR", 5, "2024-01-15"⟩, List.mem_singleton.mpr rfl, rfl⟩
  simpa [rowsToDict, dictInsert, removeKey] using h

/-- C1: on a cache miss (the execution in which the fetch actually runs and
fails) with at least one row in the store, get_latest_rates does not raise:
it returns the rows of the maximum date present in the store — d is a date
of a stored row and bounds every stored date — with the source tag
"cache-fallback" (the code's literal string for the spec's stale-cache
provenance) and with that maximum date, not today, as the date field. -/
theorem claim_stale_cache_fallback (today : String) (store : Store)
    (resp : Option HttpResponse)
    (hne : store ≠ [])
    (hmiss : ∀ r ∈ store, r.date ≠ today)
    (hfail : ∃ e, fetch_bnr_rates today resp = .error e) :
    ∃ d, maxDate store = some d ∧ (∃ r ∈ store, r.date = d) ∧
      (∀ r ∈ store, r.date ≤ d) ∧
      get_latest_rates today store resp =
        .ok ⟨⟨rowsToDict (store.filter (fun r => r.date = d)), d,
              "cache-fallback"⟩, store, true⟩ := by
  obtain ⟨e, he⟩ := hfail
  cases hm : maxDate store with
  | none => exact absurd ((maxDate_eq_none_iff store).mp hm) hne
  | some d =>
    refine ⟨d, rfl, maxDate_mem store d hm, maxDate_ge store d hm, ?_⟩
    rw [get_latest_rates_of_miss today store resp hmiss, he, hm]

/-- Witness for C1 at the spec's own scenario: the store holds only a
snapshot dated 2024-01-10, today is 2024-01-15 and the fetch fails; the
call returns 2024-01-10 stale data with the fallback tag. -/
theorem claim_stale_cache_fallback_witness :
    get_latest_rates "2024-01-15" [⟨"EUR", 5, "2024-01-10"⟩] none =
      .ok ⟨⟨[("EUR", 5)], "2024-01-10", "cache-fallback"⟩,
           [⟨"EUR", 5, "2024-01-10"⟩], true⟩ := by
  obtain ⟨d, hd, -, -, heq⟩ := claim_stale_cache_fallback "2024-01-15"
    [⟨"EUR", 5, "2024-01-10"⟩] none (by simp)
    (by intro r hr; rw [List.mem_singleton] at hr; subst hr; decide)
    ⟨.fetchFailed, rfl⟩
  have hd' : "2024-01-10" = d :=
    Option.some.inj ((rfl :
      maxDate [⟨"EUR", 5, "2024-01-10"⟩] = some "2024-01-10").symm.trans hd)
  subst hd'
  simpa [rowsToDict, dictInsert, removeKey] using heq

/-- C2: get_latest_rates fails exactly when the fetch fails and the store is
empty, and then with noRatesAvailable; every error it ever surfaces is
noRatesAvailable — never the wrapped fetch failure of the source client. -/
theorem claim_only_failure_no_rates (today : String) (store : Store)
    (resp : Option HttpResponse) :
    (get_latest_rates today store resp = .error .noRatesAvailable ↔
       store = [] ∧ ∃ e, fetch_bnr_rates today resp = .error e) ∧
    (∀ e, get_latest_rates today store resp = .error e →
       e = .noRatesAvailable) := by
  by_cases hhit : ∃ r ∈ store, r.date = today
  · rw [get_latest_rates_of_hit today store resp hhit]
    refine ⟨⟨fun h => Except.noConfusion h, ?_⟩, fun e he => Except.noConfusion he⟩
    rintro ⟨rfl, -⟩
    obtain ⟨r, hr, -⟩ := hhit
    cases hr
  · have hmiss : ∀ r ∈ store, r.date ≠ today := fun r hr hd => hhit ⟨r, hr, hd⟩
    cases hf : fetch_bnr_rates today resp with
    | ok data =>
      have heq : get_latest_rates today store resp =
          .ok ⟨⟨data.exchangeRates, data.date, "bnr"⟩,
               save_rates_to_database store data.exchangeRates data.date, true⟩ := by
        rw [get_latest_rates_of_miss today store resp hmiss, hf]
      rw [heq]
      refine ⟨⟨fun h => Except.noConfusion h, ?_⟩, fun e he => Except.noConfusion he⟩
      rintro ⟨-, e, he⟩
      exact Except.noConfusion he
    | error e0 =>
      cases hm : maxDate store with
      | none =>
        have heq : get_latest_rates today store resp = .error .noRatesAvailable := by
          rw [get_latest_rates_of_miss today store resp hmiss, hf, hm]
        rw [heq]
        have hs : store = [] := (maxDate_eq_none_iff store).mp hm
        exact ⟨⟨fun _ => ⟨hs, e0, rfl⟩, fun _ => rfl⟩,
               fun e he => (Except.error.inj he).symm⟩
      | some d =>
        have heq : get_latest_rates today store resp =
            .ok ⟨⟨rowsToDict (store.filter (fun r => r.date = d)), d,
                  "cache-fallback"⟩, store, true⟩ := by
          rw [get_latest_rates_of_miss today store resp hmiss, hf, hm]
        rw [heq]
        have hne : store ≠ [] := by
          obtain ⟨r, hr, -⟩ := maxDate_mem store d hm
          exact List.ne_nil_of_mem hr
        refine ⟨⟨fun h => Except.noConfusion h, ?_⟩, fun e he => Except.noConfusion he⟩
        rintro ⟨hs, -⟩
        exact absurd hs hne

/-- Witness for C2 at a concrete input: empty store and failing fetch raise
exactly noRatesAvailable. -/
theorem claim_only_failure_no_rates_witness :
    get_latest_rates "2024-01-15" [] none = .error .noRatesAvailable :=
  (claim_only_failure_no_rates "2024-01-15" [] none).1.mpr
    ⟨rfl, .fetchFailed, rfl⟩

/-- C10: on the live path (cache miss, fetch succeeds) the returned date
and the date the rates are persisted under is the document's own date, not
today; and when that document date is earlier than (or in any way different
from) today, the updated store still has no row dated today, so every
subsequent same-day call misses the cache again and invokes the fetch
(fetchInvoked = true on any successful outcome). -/
theorem claim_live_date_no_cache (today : String) (store : Store)
    (resp : Option HttpResponse) (data : FetchData)
    (hmiss : ∀ r ∈ store, r.date ≠ today)
    (hfetch : fetch_bnr_rates today resp = .ok data) :
    get_latest_rates today store resp =
      .ok ⟨⟨data.exchangeRates, data.date, "bnr"⟩,
           save_rates_to_database store data.exchangeRates data.date, true⟩ ∧
    (data.date ≠ today →
      (∀ r ∈ save_rates_to_database store data.exchangeRates data.date,
         r.date ≠ today) ∧
      (∀ resp2 o, get_latest_rates today
          (save_rates_to_database store data.exchangeRates data.date) resp2 =
            .ok o → o.fetchInvoked = true)) := by
  constructor
  · rw [get_latest_rates_of_miss today store resp hmiss, hfetch]
  · intro hd
    have hmiss' : ∀ r ∈ save_rates_to_database store data.exchangeRates data.date,
        r.date ≠ today := by
      intro r hr
      rcases mem_save_rates store data.exchangeRates data.date r hr with hin | hdd
      · exact hmiss r hin
      · rw [hdd]; exact hd
    refine ⟨hmiss', ?_⟩
    intro resp2 o ho
    rw [get_latest_rates_of_miss today _ resp2 hmiss'] at ho
    cases hf2 : fetch_bnr_rates today resp2 with
    | ok data2 =>
      rw [hf2] at ho
      have h := Except.ok.inj ho
      rw [← h]
    | error e2 =>
      rw [hf2] at ho
      cases hm2 : maxDate (save_rates_to_database store data.exchangeRates data.date) with
      | none => rw [hm2] at ho; exact Except.noConfusion ho
      | some d2 =>
        rw [hm2] at ho
        have h := Except.ok.inj ho
        rw [← h]

/-- Witness for C10 at a concrete input: empty store, successful fetch of a
document dated 2024-01-10 while today is 2024-01-15; the call returns and
persists under 2024-01-10, with the fetch invoked. -/
theorem claim_live_date_no_cache_witness :
    get_latest_rates "2024-01-15" [] (some ⟨200, some ⟨some ⟨some "2024-01-10",
      [⟨some "EUR", none, some 5⟩]⟩⟩⟩) =
      .ok ⟨⟨[("EUR", 5), ("RON", 1)], "2024-01-10", "bnr"⟩,
           [⟨"EUR", 5, "2024-01-10"⟩, ⟨"RON", 1, "2024-01-10"⟩], true⟩ := by
  have h := (claim_live_date_no_cache "2024-01-15" [] _
    ⟨[("EUR", 5), ("RON", 1)], "2024-01-10"⟩ (by simp) fetch_example_eval).1
  simpa [save_rates_to_database, upsertRow] using h

end CurrencyService
